import Mathlib

/-!
Verification development for the NeRFRenderCore occupancy-grid /
ray-marching core.

The `Transform4f` section is a direct shallow embedding of
`src/utils/linalg/transform4f.cuh` with machine floats replaced by exact
rational arithmetic (the claims about it are stated over exact
arithmetic; every operation involved is a field expression, so ℚ is a
faithful exact carrier).  The occupancy-grid, stream-compaction and
compositing sections embed components whose kernel bodies are not part
of the available sources (only their declarations are); those
definitions are modelled from the specification text, as noted in their
doc comments.
-/

namespace NRC

/-- Embedding of CUDA `float3` over exact scalars. -/
structure Float3 where
  x : ℚ
  y : ℚ
  z : ℚ
deriving DecidableEq

/-- Embedding of `make_float3`. -/
def make_float3 (x y z : ℚ) : Float3 := ⟨x, y, z⟩

/-- Componentwise addition of `Float3` (used to state the affine
decomposition of the homogeneous action). -/
def Float3.add (a b : Float3) : Float3 := ⟨a.x + b.x, a.y + b.y, a.z + b.z⟩

theorem Float3.ext_xyz (a b : Float3) (hx : a.x = b.x) (hy : a.y = b.y)
    (hz : a.z = b.z) : a = b := by
  cases a; cases b; simp_all

/-- Embedding of `Transform4f` from `src/utils/linalg/transform4f.cuh`:
a 3x4 matrix (the last homogeneous row `0 0 0 1` is implicit), stored as
twelve scalar fields, over exact scalars. -/
structure Transform4f where
  m00 : ℚ
  m01 : ℚ
  m02 : ℚ
  m03 : ℚ
  m10 : ℚ
  m11 : ℚ
  m12 : ℚ
  m13 : ℚ
  m20 : ℚ
  m21 : ℚ
  m22 : ℚ
  m23 : ℚ
deriving DecidableEq

namespace Transform4f

theorem ext_fields (a b : Transform4f)
    (h00 : a.m00 = b.m00) (h01 : a.m01 = b.m01) (h02 : a.m02 = b.m02) (h03 : a.m03 = b.m03)
    (h10 : a.m10 = b.m10) (h11 : a.m11 = b.m11) (h12 : a.m12 = b.m12) (h13 : a.m13 = b.m13)
    (h20 : a.m20 = b.m20) (h21 : a.m21 = b.m21) (h22 : a.m22 = b.m22) (h23 : a.m23 = b.m23) :
    a = b := by
  cases a; cases b; simp_all

/-- Embedding of `Transform4f::Identity()`. -/
def Identity : Transform4f :=
  ⟨1, 0, 0, 0,
   0, 1, 0, 0,
   0, 0, 1, 0⟩

/-- Embedding of `Transform4f::mmul_ul3x3`: multiply by the upper-left
3x3 block, no translation. -/
def mmul_ul3x3 (t : Transform4f) (v : Float3) : Float3 :=
  make_float3
    (t.m00 * v.x + t.m01 * v.y + t.m02 * v.z)
    (t.m10 * v.x + t.m11 * v.y + t.m12 * v.z)
    (t.m20 * v.x + t.m21 * v.y + t.m22 * v.z)

/-- Embedding of `Transform4f::operator*(const float3&)`: homogeneous
application of the affine transform to a point. -/
def mulVec (t : Transform4f) (v : Float3) : Float3 :=
  make_float3
    (t.m00 * v.x + t.m01 * v.y + t.m02 * v.z + t.m03)
    (t.m10 * v.x + t.m11 * v.y + t.m12 * v.z + t.m13)
    (t.m20 * v.x + t.m21 * v.y + t.m22 * v.z + t.m23)

/-- Embedding of `Transform4f::operator*(const Transform4f&)`. -/
def mul (a x : Transform4f) : Transform4f :=
  ⟨a.m00 * x.m00 + a.m01 * x.m10 + a.m02 * x.m20,
   a.m00 * x.m01 + a.m01 * x.m11 + a.m02 * x.m21,
   a.m00 * x.m02 + a.m01 * x.m12 + a.m02 * x.m22,
   a.m00 * x.m03 + a.m01 * x.m13 + a.m02 * x.m23 + a.m03,

   a.m10 * x.m00 + a.m11 * x.m10 + a.m12 * x.m20,
   a.m10 * x.m01 + a.m11 * x.m11 + a.m12 * x.m21,
   a.m10 * x.m02 + a.m11 * x.m12 + a.m12 * x.m22,
   a.m10 * x.m03 + a.m11 * x.m13 + a.m12 * x.m23 + a.m13,

   a.m20 * x.m00 + a.m21 * x.m10 + a.m22 * x.m20,
   a.m20 * x.m01 + a.m21 * x.m11 + a.m22 * x.m21,
   a.m20 * x.m02 + a.m21 * x.m12 + a.m22 * x.m22,
   a.m20 * x.m03 + a.m21 * x.m13 + a.m22 * x.m23 + a.m23⟩

/-- Embedding of `Transform4f::get_translation()`. -/
def get_translation (t : Transform4f) : Float3 :=
  make_float3 t.m03 t.m13 t.m23

/-- Embedding of `Transform4f::determinant()` (determinant of the
upper-left 3x3 block). -/
def determinant (t : Transform4f) : ℚ :=
  0.0
    + t.m00 * (t.m11 * t.m22 - t.m12 * t.m21)
    - t.m01 * (t.m10 * t.m22 - t.m12 * t.m20)
    + t.m02 * (t.m10 * t.m21 - t.m11 * t.m20)

/-- Embedding of `Transform4f::inverse()`.  The source's shared local
subexpressions (`m11_x_m22_m_m12_x_m21`, `det`, `i_det`, ...) are
inlined; `i_det` is `1 / determinant`. -/
def inverse (t : Transform4f) : Transform4f :=
  ⟨  (t.m11 * t.m22 - t.m12 * t.m21) * (1.0 / t.determinant),
   - (t.m01 * t.m22 - t.m02 * t.m21) * (1.0 / t.determinant),
     (t.m01 * t.m12 - t.m02 * t.m11) * (1.0 / t.determinant),
   - (t.m01 * (t.m12 * t.m23 - t.m13 * t.m22)
        - t.m02 * (t.m11 * t.m23 - t.m13 * t.m21)
        + t.m03 * (t.m11 * t.m22 - t.m12 * t.m21)) * (1.0 / t.determinant),
   - (t.m10 * t.m22 - t.m12 * t.m20) * (1.0 / t.determinant),
     (t.m00 * t.m22 - t.m02 * t.m20) * (1.0 / t.determinant),
   - (t.m00 * t.m12 - t.m02 * t.m10) * (1.0 / t.determinant),
     (t.m00 * (t.m12 * t.m23 - t.m13 * t.m22)
        - t.m02 * (t.m10 * t.m23 - t.m13 * t.m20)
        + t.m03 * (t.m10 * t.m22 - t.m12 * t.m20)) * (1.0 / t.determinant),
     (t.m10 * t.m21 - t.m11 * t.m20) * (1.0 / t.determinant),
   - (t.m00 * t.m21 - t.m01 * t.m20) * (1.0 / t.determinant),
     (t.m00 * t.m11 - t.m01 * t.m10) * (1.0 / t.determinant),
   - (t.m00 * (t.m11 * t.m23 - t.m13 * t.m21)
        - t.m01 * (t.m10 * t.m23 - t.m13 * t.m20)
        + t.m03 * (t.m10 * t.m21 - t.m11 * t.m20)) * (1.0 / t.determinant)⟩

end Transform4f

/-- Modelled from the spec: the OccupancyGrid data model (§3, §9.1): the
kernel bodies behind `src/utils/occupancy-grid-kernels.cuh` are not in the
available sources, only their declarations.  `n_levels` cascades, each a
fixed-size grid of `n_cells_per_level` cells; per cell one occupancy bit
and one density estimate ("sigma"), held as two parallel flat arrays
indexed by (level, flattened cell index). -/
structure OccupancyGrid where
  n_levels : ℕ
  n_cells_per_level : ℕ
  sigma : ℕ → ℚ
  bits : ℕ → Bool

namespace OccupancyGrid

/-- Flat index of cell `j` of cascade `level` in the parallel arrays. -/
def cell_index (g : OccupancyGrid) (level j : ℕ) : ℕ :=
  level * g.n_cells_per_level + j

/-- Modelled from the spec: `update_bits(threshold)` (§4.1, missing body of
`update_occupancy_grid_bits_kernel`): recompute every bit as
(sigma > threshold); nothing else is touched. -/
def update_bits (threshold : ℚ) (g : OccupancyGrid) : OccupancyGrid :=
  { g with bits := fun i => decide (g.sigma i > threshold) }

/-- Modelled from the spec: `decay(factor)` (§4.1, missing body of
`decay_occupancy_grid_values_kernel`): multiply every cell's sigma, at
every cascade level, by `factor`. -/
def decay (factor : ℚ) (g : OccupancyGrid) : OccupancyGrid :=
  { g with sigma := fun i => factor * g.sigma i }

/-- Modelled from the spec: `update_with_density` (§4.1, missing body of
`update_occupancy_with_density_kernel`; parameter list from its
declaration).  Sample `j < n_samples` probes flat cell `start_idx + j` of
cascade `level`; its draw `random_values j` passes when it is below
`selection_threshold`, in which case the cell's sigma becomes
max(old, network sigma); otherwise, and outside the sampled range, sigma
is unchanged. -/
def update_with_density (level n_samples : ℕ)
    (selection_threshold decay_factor : ℚ)
    (network_sigma random_values : ℕ → ℚ)
    (start_idx : ℕ) (g : OccupancyGrid) : OccupancyGrid :=
  { g with sigma := fun i =>
      if g.cell_index level start_idx ≤ i ∧
          i < g.cell_index level start_idx + n_samples then
        if random_values (i - g.cell_index level start_idx) < selection_threshold then
          max (g.sigma i) (network_sigma (i - g.cell_index level start_idx))
        else
          g.sigma i
      else
        g.sigma i }

end OccupancyGrid

/-- A small concrete grid used to instantiate the grid theorems. -/
def sample_grid : OccupancyGrid :=
  { n_levels := 1, n_cells_per_level := 8, sigma := fun _ => 1, bits := fun _ => false }

/-- Modelled from the spec: StreamCompaction (§4.2; the body of
`src/utils/stream-compaction.cu` is not in the available sources).  The
scatter pass of the compaction: `scatter_survivors i acc pred out` walks
the remaining predicate entries starting at original index `i`, with
`acc` the running exclusive prefix-sum of the predicate's 0/1 flags, and
scatters each surviving original index into slot `acc` of the dense
output buffer `out`. -/
def scatter_survivors : ℕ → ℕ → List Bool → List ℕ → List ℕ
  | _, _, [], out => out
  | i, acc, b :: rest, out =>
      scatter_survivors (i + 1) (acc + if b then 1 else 0) rest
        (if b then out.set acc i else out)

/-- Number of surviving entries: the total of the exclusive prefix-sum,
i.e. the number of `true` predicate entries. -/
def survivor_count (pred : List Bool) : ℕ := pred.count true

/-- Modelled from the spec: StreamCompaction (§4.2): exclusive prefix-sum
over the predicate followed by a scatter into a dense buffer of
`survivor_count` slots. -/
def stream_compact (pred : List Bool) : List ℕ :=
  scatter_survivors 0 0 pred (List.replicate (survivor_count pred) 0)

/-- The list of original indices (offset by `i`) of the `true` predicate
entries, in order: the intended content of the compacted buffer, used to
characterize the scatter result. -/
def true_indices : ℕ → List Bool → List ℕ
  | _, [] => []
  | i, b :: rest => if b then i :: true_indices (i + 1) rest else true_indices (i + 1) rest

/-- Per-ray termination states of the renderer state machine,
modelled from the spec (§4.3). -/
inductive RayState where
  | ALIVE
  | TERMINATED_OPACITY
  | TERMINATED_OOB
  | TERMINATED_MAXSTEPS
deriving DecidableEq

/-- Modelled from the spec: the per-ray compositing state (§3, §4.3):
termination state, accumulated color (three channels) and accumulated
transmittance, over exact scalars. -/
structure Ray where
  state : RayState
  color : Fin 3 → ℚ
  transmittance : ℚ

/-- Modelled from the spec: a render sample (§3): network density and
color queried at the sample position, and the marching step length. -/
structure Sample where
  density : ℚ
  step : ℚ
  color : Fin 3 → ℚ

/-- Modelled from the spec: compositing one sample into a ray, exactly as
§4.3 step 5 is written: `weight = transmittance × (1 − exp(−density × step))`,
`color += weight × sample color`, `transmittance ×= (1 − weight)`, and the
ray is marked TERMINATED_OPACITY once the accumulated opacity
(1 − transmittance) exceeds the threshold.  A ray in a terminal state is
not in the compacted active set and is untouched.  The exponential
(CUDA `__expf`) is the abstract parameter `ex`: the state-machine
properties hold for every exponential, and keeping it abstract keeps the
ℚ-valued state machine executable. -/
def composite_sample (ex : ℚ → ℚ) (opacity_threshold : ℚ) (r : Ray) (s : Sample) : Ray :=
  if r.state = RayState.ALIVE then
    { state :=
        if 1 - r.transmittance * (1 - r.transmittance * (1 - ex (-(s.density * s.step))))
            > opacity_threshold
        then RayState.TERMINATED_OPACITY
        else RayState.ALIVE,
      color := fun k =>
        r.color k + (r.transmittance * (1 - ex (-(s.density * s.step)))) * s.color k,
      transmittance :=
        r.transmittance * (1 - r.transmittance * (1 - ex (-(s.density * s.step)))) }
  else r

/-- Front-to-back compositing of a sample batch into a ray (§4.3 step 5),
in increasing-distance order. -/
def composite_list (ex : ℚ → ℚ) (opacity_threshold : ℚ)
    (samples : List Sample) (r : Ray) : Ray :=
  samples.foldl (composite_sample ex opacity_threshold) r

/-- Modelled from the spec: one synchronous render round as seen by a
single ray (§4.3): the round first compacts the ALIVE set, so a ray in a
terminal state is untouched; an ALIVE ray composites the batch of samples
generated for it. -/
def ray_round (ex : ℚ → ℚ) (opacity_threshold : ℚ)
    (samples : List Sample) (r : Ray) : Ray :=
  if r.state = RayState.ALIVE then composite_list ex opacity_threshold samples r else r

/-- Modelled from the spec: the bare front-to-back compositing rule of
§4.3 step 5 (the formulas of Scenario A) run over constant density and
constant color: state is the pair (accumulated color, transmittance),
started at (0, 1), folded over the step lengths of the traversal.
This is the rule exactly as the spec writes it: the transmittance is
multiplied by `(1 − weight)`. -/
def composite_run (ex : ℝ → ℝ) (density : ℝ) (c : Fin 3 → ℝ)
    (steps : List ℝ) : (Fin 3 → ℝ) × ℝ :=
  steps.foldl
    (fun acc dt =>
      (fun k => acc.1 k + (acc.2 * (1 - ex (-(density * dt)))) * c k,
       acc.2 * (1 - acc.2 * (1 - ex (-(density * dt))))))
    (fun _ => 0, 1)

/-- The standard front-to-back compositing rule, identical to
`composite_run` except that the transmittance is multiplied by
`(1 − alpha) = exp(−density × step)` instead of `(1 − weight)`: the
amended rule under which the constant-density traversal matches the
analytic volume-rendering integral. -/
def composite_run_alpha (ex : ℝ → ℝ) (density : ℝ) (c : Fin 3 → ℝ)
    (steps : List ℝ) : (Fin 3 → ℝ) × ℝ :=
  steps.foldl
    (fun acc dt =>
      (fun k => acc.1 k + (acc.2 * (1 - ex (-(density * dt)))) * c k,
       acc.2 * ex (-(density * dt))))
    (fun _ => 0, 1)

/-- A concrete terminated ray used to instantiate the absorbing-state
theorem. -/
def oob_ray : Ray :=
  { state := RayState.TERMINATED_OOB, color := fun _ => 0, transmittance := 1 }

/-- A concrete sample used to instantiate the absorbing-state theorem. -/
def unit_sample : Sample :=
  { density := 1, step := 1, color := fun _ => 1 }

end NRC

set_option maxHeartbeats 1600000

/-- C8: for every `Transform4f` `T` with nonzero `determinant()`, over exact
arithmetic `T * T.inverse()` and `T.inverse() * T` both equal
`Transform4f::Identity()`: the inverse computed from the upper-left 3x3
determinant is a two-sided inverse of the affine transform. -/
theorem C8_inverse_two_sided (t : NRC.Transform4f) (h : t.determinant ≠ 0) :
    t.mul t.inverse = NRC.Transform4f.Identity ∧
    t.inverse.mul t = NRC.Transform4f.Identity := by
  have hd : (0.0 : ℚ) + t.m00 * (t.m11 * t.m22 - t.m12 * t.m21)
      - t.m01 * (t.m10 * t.m22 - t.m12 * t.m20)
      + t.m02 * (t.m10 * t.m21 - t.m11 * t.m20) ≠ 0 := h
  constructor <;>
    refine NRC.Transform4f.ext_fields _ _ ?_ ?_ ?_ ?_ ?_ ?_ ?_ ?_ ?_ ?_ ?_ ?_ <;>
    simp only [NRC.Transform4f.mul, NRC.Transform4f.inverse,
      NRC.Transform4f.Identity, NRC.Transform4f.determinant] <;>
    field_simp <;>
    ring

/-- Witness for C8 at the identity transform. -/
theorem C8_inverse_two_sided_witness :
    NRC.Transform4f.Identity.determinant ≠ 0 ∧
    NRC.Transform4f.Identity.mul NRC.Transform4f.Identity.inverse
      = NRC.Transform4f.Identity := by
  have h : NRC.Transform4f.Identity.determinant ≠ 0 := by
    norm_num [NRC.Transform4f.determinant, NRC.Transform4f.Identity]
  exact ⟨h, (C8_inverse_two_sided NRC.Transform4f.Identity h).1⟩

/-- C9: for every `Transform4f` `T` and 3-vector `v`, the homogeneous
application `T * v` equals `T.mmul_ul3x3(v) + T.get_translation()`
componentwise. -/
theorem C9_affine_decomposition (t : NRC.Transform4f) (v : NRC.Float3) :
    t.mulVec v = (t.mmul_ul3x3 v).add t.get_translation := by
  refine NRC.Float3.ext_xyz _ _ ?_ ?_ ?_ <;>
    simp [NRC.Transform4f.mulVec, NRC.Transform4f.mmul_ul3x3,
      NRC.Transform4f.get_translation, NRC.Float3.add, NRC.make_float3]

/-- C10: for all `Transform4f` `A`, `B` and every 3-vector `v`, over exact
arithmetic `(A * B) * v = A * (B * v)`: the matrix-matrix product with
its implicit bottom row `0 0 0 1` is the composition of the affine actions. -/
theorem C10_mul_is_composition (a b : NRC.Transform4f) (v : NRC.Float3) :
    (a.mul b).mulVec v = a.mulVec (b.mulVec v) := by
  refine NRC.Float3.ext_xyz _ _ ?_ ?_ ?_ <;>
    simp [NRC.Transform4f.mul, NRC.Transform4f.mulVec, NRC.make_float3] <;>
    ring

/-- C1: for every occupancy grid state, cell index `i` and threshold `t`,
immediately after `update_bits(t)` the occupancy bit of cell `i` equals
(sigma of cell `i` > `t`), and no other grid state (sigma array, level
and cell counts) is changed by `update_bits`. -/
theorem C1_update_bits_spec (g : NRC.OccupancyGrid) (t : ℚ) (i : ℕ) :
    (g.update_bits t).bits i = decide (g.sigma i > t) ∧
    (g.update_bits t).sigma = g.sigma ∧
    (g.update_bits t).n_levels = g.n_levels ∧
    (g.update_bits t).n_cells_per_level = g.n_cells_per_level := by
  simp [NRC.OccupancyGrid.update_bits]

/-- C2: for every `update_with_density` call and every sampled cell
(`start_idx + j` at cascade `level`, `j < n_samples`): if the drawn random
value passes `selection_threshold` the cell's sigma becomes
max(old sigma, supplied network sigma); if the draw does not pass it is
unchanged; and every cell outside the sampled range is unchanged. -/
theorem C2_update_with_density_spec (g : NRC.OccupancyGrid)
    (level n_samples start_idx : ℕ) (st df : ℚ) (ns rv : ℕ → ℚ)
    (j i : ℕ) (hj : j < n_samples)
    (hi : i < g.cell_index level start_idx ∨
      g.cell_index level start_idx + n_samples ≤ i) :
    ((rv j < st →
        (g.update_with_density level n_samples st df ns rv start_idx).sigma
            (g.cell_index level (start_idx + j))
          = max (g.sigma (g.cell_index level (start_idx + j))) (ns j)) ∧
      (¬ rv j < st →
        (g.update_with_density level n_samples st df ns rv start_idx).sigma
            (g.cell_index level (start_idx + j))
          = g.sigma (g.cell_index level (start_idx + j)))) ∧
    (g.update_with_density level n_samples st df ns rv start_idx).sigma i
      = g.sigma i := by
  have hin : g.cell_index level start_idx ≤ g.cell_index level (start_idx + j) ∧
      g.cell_index level (start_idx + j) < g.cell_index level start_idx + n_samples := by
    unfold NRC.OccupancyGrid.cell_index
    omega
  have hsub : g.cell_index level (start_idx + j) - g.cell_index level start_idx = j := by
    unfold NRC.OccupancyGrid.cell_index
    omega
  refine ⟨⟨fun hpass => ?_, fun hfail => ?_⟩, ?_⟩
  · simp only [NRC.OccupancyGrid.update_with_density, if_pos hin, hsub, if_pos hpass]
  · simp only [NRC.OccupancyGrid.update_with_density, if_pos hin, hsub, if_neg hfail]
  · have hout : ¬ (g.cell_index level start_idx ≤ i ∧
        i < g.cell_index level start_idx + n_samples) := by omega
    simp only [NRC.OccupancyGrid.update_with_density, if_neg hout]

/-- Witness for C2 on a concrete grid: one sample at cell 0 of level 0,
a passing draw (0 < 1/2) replacing sigma 1 with max 1 5 = 5, and cell 3
outside the sampled range left unchanged. -/
theorem C2_update_with_density_witness :
    (NRC.sample_grid.update_with_density 0 1 (1/2) (9/10)
        (fun _ => 5) (fun _ => 0) 0).sigma 0 = 5 ∧
    (NRC.sample_grid.update_with_density 0 1 (1/2) (9/10)
        (fun _ => 5) (fun _ => 0) 0).sigma 3 = 1 := by
  have h := C2_update_with_density_spec NRC.sample_grid 0 1 0 (1/2) (9/10)
    (fun _ => 5) (fun _ => 0) 0 3 (by norm_num)
    (by right; simp [NRC.OccupancyGrid.cell_index, NRC.sample_grid])
  refine ⟨?_, ?_⟩
  · have h0 := h.1.1 (by norm_num)
    simpa [NRC.OccupancyGrid.cell_index, NRC.sample_grid] using h0
  · simpa [NRC.sample_grid] using h.2

lemma decay_iterate_sigma (f : ℚ) (n : ℕ) (g : NRC.OccupancyGrid) (i : ℕ) :
    ((NRC.OccupancyGrid.decay f)^[n] g).sigma i = f ^ n * g.sigma i := by
  induction n generalizing g with
  | zero => simp
  | succ n ih =>
    rw [Function.iterate_succ_apply]
    rw [ih (g.decay f)]
    simp only [NRC.OccupancyGrid.decay]
    ring

/-- C3: applying `decay(f)` `n` times in sequence multiplies every cell's
sigma by `f^n` (exactly, in the exact-arithmetic model), and a single
`decay(f)` call multiplies every cell's sigma by `f` at every cascade
level. -/
theorem C3_decay_iterated (f : ℚ) (n : ℕ) (g : NRC.OccupancyGrid) (i : ℕ) :
    ((NRC.OccupancyGrid.decay f)^[n] g).sigma i = f ^ n * g.sigma i ∧
    (g.decay f).sigma i = f * g.sigma i := by
  refine ⟨decay_iterate_sigma f n g i, ?_⟩
  simp [NRC.OccupancyGrid.decay]

/-- C4: if every cell's sigma is non-negative, then `decay` (with
`0 ≤ f < 1`), `update_with_density` and `update_bits` all preserve
non-negativity of every cell's sigma, and under decay alone no cell's
sigma ever increases: any number `n` of decays only shrinks it. -/
theorem C4_sigma_invariants (g : NRC.OccupancyGrid)
    (hg : ∀ i, 0 ≤ g.sigma i) (f : ℚ) (hf0 : 0 ≤ f) (hf1 : f < 1)
    (level n_samples start_idx n : ℕ) (st df t : ℚ) (ns rv : ℕ → ℚ) (i : ℕ) :
    0 ≤ (g.decay f).sigma i ∧
    0 ≤ (g.update_with_density level n_samples st df ns rv start_idx).sigma i ∧
    0 ≤ (g.update_bits t).sigma i ∧
    (g.decay f).sigma i ≤ g.sigma i ∧
    ((NRC.OccupancyGrid.decay f)^[n] g).sigma i ≤ g.sigma i := by
  refine ⟨mul_nonneg hf0 (hg i), ?_, hg i, ?_, ?_⟩
  · simp only [NRC.OccupancyGrid.update_with_density]
    split
    · split
      · exact le_trans (hg i) (le_max_left _ _)
      · exact hg i
    · exact hg i
  · exact mul_le_of_le_one_left (hg i) (le_of_lt hf1)
  · rw [decay_iterate_sigma]
    have hpow : f ^ n ≤ 1 := pow_le_one₀ hf0 (le_of_lt hf1)
    exact mul_le_of_le_one_left (hg i) hpow

/-- Witness for C4 on a concrete grid with sigma ≡ 1, `f = 1/2` and two
decay iterations. -/
theorem C4_sigma_invariants_witness :
    0 ≤ (NRC.sample_grid.decay (1/2)).sigma 0 ∧
    0 ≤ (NRC.sample_grid.update_with_density 0 1 (1/2) (9/10)
        (fun _ => 5) (fun _ => 0) 0).sigma 0 ∧
    0 ≤ (NRC.sample_grid.update_bits (1/10)).sigma 0 ∧
    (NRC.sample_grid.decay (1/2)).sigma 0 ≤ NRC.sample_grid.sigma 0 ∧
    ((NRC.OccupancyGrid.decay (1/2))^[2] NRC.sample_grid).sigma 0
      ≤ NRC.sample_grid.sigma 0 :=
  C4_sigma_invariants NRC.sample_grid
    (fun _ => by norm_num [NRC.sample_grid]) (1/2) (by norm_num) (by norm_num)
    0 1 0 2 (1/2) (9/10) (1/10) (fun _ => 5) (fun _ => 0) 0

lemma set_append_length (done l : List ℕ) (x : ℕ) :
    (done ++ l).set done.length x = done ++ l.set 0 x := by
  induction done with
  | nil => simp
  | cons d ds ih => simp [List.set, ih]

lemma scatter_survivors_spec :
    ∀ (pred : List Bool) (i : ℕ) (done rst : List ℕ),
      rst.length = NRC.survivor_count pred →
      NRC.scatter_survivors i done.length pred (done ++ rst)
        = done ++ NRC.true_indices i pred := by
  intro pred
  induction pred with
  | nil =>
    intro i done rst h
    have hz : rst.length = 0 := by simpa [NRC.survivor_count] using h
    have : rst = [] := List.length_eq_zero.mp hz
    subst this
    simp [NRC.scatter_survivors, NRC.true_indices]
  | cons b rest ih =>
    intro i done rst h
    cases b with
    | false =>
      have h' : rst.length = NRC.survivor_count rest := by
        simpa [NRC.survivor_count, List.count_cons] using h
      simpa [NRC.scatter_survivors, NRC.true_indices] using ih (i + 1) done rst h'
    | true =>
      have hlen : rst.length = NRC.survivor_count rest + 1 := by
        simpa [NRC.survivor_count, List.count_cons] using h
      obtain ⟨r0, rtail, rfl⟩ : ∃ r0 rtail, rst = r0 :: rtail := by
        cases rst with
        | nil => simp at hlen
        | cons a t2 => exact ⟨a, t2, rfl⟩
      have htail : rtail.length = NRC.survivor_count rest := by simpa using hlen
      have hset : (done ++ r0 :: rtail).set done.length i = (done ++ [i]) ++ rtail := by
        rw [set_append_length]
        simp
      have hrec := ih (i + 1) (done ++ [i]) rtail htail
      simp only [NRC.scatter_survivors, if_true, NRC.true_indices]
      rw [hset]
      have hL : done.length + 1 = (done ++ [i]).length := by simp
      rw [hL, hrec]
      simp

lemma stream_compact_eq_true_indices (pred : List Bool) :
    NRC.stream_compact pred = NRC.true_indices 0 pred := by
  have h := scatter_survivors_spec pred 0 []
    (List.replicate (NRC.survivor_count pred) 0) (by simp)
  simpa [NRC.stream_compact] using h

lemma true_indices_length :
    ∀ (pred : List Bool) (i : ℕ),
      (NRC.true_indices i pred).length = pred.count true := by
  intro pred
  induction pred with
  | nil => intro i; simp [NRC.true_indices]
  | cons b rest ih =>
    intro i
    cases b <;> simp [NRC.true_indices, List.count_cons, ih]

lemma true_indices_ge :
    ∀ (pred : List Bool) (i x : ℕ), x ∈ NRC.true_indices i pred → i ≤ x := by
  intro pred
  induction pred with
  | nil => intro i x hx; simp [NRC.true_indices] at hx
  | cons b rest ih =>
    intro i x hx
    cases b with
    | false =>
      have := ih (i + 1) x (by simpa [NRC.true_indices] using hx)
      omega
    | true =>
      simp only [NRC.true_indices, if_true, List.mem_cons] at hx
      rcases hx with rfl | hx
      · exact le_refl x
      · have := ih (i + 1) x hx
        omega

lemma true_indices_sorted :
    ∀ (pred : List Bool) (i : ℕ),
      List.Sorted (· < ·) (NRC.true_indices i pred) := by
  intro pred
  induction pred with
  | nil => intro i; simp [NRC.true_indices]
  | cons b rest ih =>
    intro i
    cases b with
    | false => simpa [NRC.true_indices] using ih (i + 1)
    | true =>
      simp only [NRC.true_indices, if_true]
      refine List.sorted_cons.mpr ⟨fun x hx => ?_, ih (i + 1)⟩
      have := true_indices_ge rest (i + 1) x hx
      omega

/-- C5: for every entry count and boolean predicate, StreamCompaction's
output index list is strictly increasing and its length equals the number
of `true` predicate entries; an all-false predicate of length `n` yields
count 0, the empty input yields the empty output, and an all-true
predicate of length `n` yields all `n` indices. -/
theorem C5_stream_compaction (pred : List Bool) (n : ℕ) :
    List.Sorted (· < ·) (NRC.stream_compact pred) ∧
    (NRC.stream_compact pred).length = pred.count true ∧
    NRC.stream_compact (List.replicate n false) = [] ∧
    NRC.stream_compact ([] : List Bool) = [] ∧
    (NRC.stream_compact (List.replicate n true)).length = n := by
  refine ⟨?_, ?_, ?_, ?_, ?_⟩
  · rw [stream_compact_eq_true_indices]
    exact true_indices_sorted pred 0
  · rw [stream_compact_eq_true_indices]
    exact true_indices_length pred 0
  · rw [stream_compact_eq_true_indices]
    have hc : List.count true (List.replicate n false) = 0 :=
      List.count_eq_zero.mpr (by simp [List.mem_replicate])
    have hz : (NRC.true_indices 0 (List.replicate n false)).length = 0 :=
      (true_indices_length (List.replicate n false) 0).trans hc
    exact List.length_eq_zero.mp hz
  · rfl
  · rw [stream_compact_eq_true_indices]
    have hc : List.count true (List.replicate n true) = n :=
      List.count_replicate_self true n
    exact (true_indices_length (List.replicate n true) 0).trans hc

lemma composite_sample_terminal (ex : ℚ → ℚ) (th : ℚ) (r : NRC.Ray)
    (s : NRC.Sample) (h : r.state ≠ NRC.RayState.ALIVE) :
    NRC.composite_sample ex th r s = r := by
  simp [NRC.composite_sample, h]

lemma composite_list_terminal (ex : ℚ → ℚ) (th : ℚ) (samples : List NRC.Sample)
    (r : NRC.Ray) (h : r.state ≠ NRC.RayState.ALIVE) :
    NRC.composite_list ex th samples r = r := by
  induction samples with
  | nil => rfl
  | cons s rest ih =>
    show NRC.composite_list ex th (s :: rest) r = r
    rw [NRC.composite_list, List.foldl_cons,
      composite_sample_terminal ex th r s h]
    exact ih

/-- C6: once a ray's prefix of compositing steps leaves it in a terminal
state — TERMINATED_OPACITY when the accumulated opacity crossed the
termination threshold at step k, or TERMINATED_OOB / TERMINATED_MAXSTEPS —
processing further samples changes nothing (no further color
contribution), and a subsequent render round leaves the ray's state,
color and transmittance unchanged: terminal states are absorbing. -/
theorem C6_terminal_states_absorbing (ex : ℚ → ℚ) (th : ℚ) (r : NRC.Ray)
    (pre post : List NRC.Sample)
    (hpre : (NRC.composite_list ex th pre r).state ≠ NRC.RayState.ALIVE) :
    NRC.composite_list ex th (pre ++ post) r = NRC.composite_list ex th pre r ∧
    NRC.ray_round ex th post (NRC.composite_list ex th pre r)
      = NRC.composite_list ex th pre r := by
  constructor
  · show (pre ++ post).foldl (NRC.composite_sample ex th) r = _
    rw [List.foldl_append]
    exact composite_list_terminal ex th post _ hpre
  · rw [NRC.ray_round, if_neg hpre]

/-- Witness for C6: a ray already terminated out-of-bounds is unchanged
by compositing a further sample. -/
theorem C6_terminal_states_absorbing_witness :
    (NRC.composite_list id (99/100) [] NRC.oob_ray).state ≠ NRC.RayState.ALIVE ∧
    NRC.composite_list id (99/100) ([] ++ [NRC.unit_sample]) NRC.oob_ray
      = NRC.composite_list id (99/100) [] NRC.oob_ray := by
  have h : (NRC.composite_list id (99/100) [] NRC.oob_ray).state
      ≠ NRC.RayState.ALIVE := by
    simp [NRC.composite_list, NRC.oob_ray]
  exact ⟨h,
    (C6_terminal_states_absorbing id (99/100) NRC.oob_ray [] [NRC.unit_sample] h).1⟩

/-- C7 counterexample: the compositing rule exactly as the claim writes it
(`transmittance ×= (1 − weight)`) does NOT reproduce the analytic
constant-density integral: with density ρ = ln 2, constant color 1, and
the traversal of length L = 3 partitioned into three unit steps, the
accumulated color is 15/16, not 1 − exp(−ρL) = 7/8. -/
theorem C7_counterexample_literal_rule :
    (NRC.composite_run Real.exp (Real.log 2) (fun _ => 1) [1, 1, 1]).1 0
      ≠ (1 - Real.exp (-(Real.log 2 * 3))) * 1 := by
  have he : Real.exp (-(Real.log 2 * 1)) = 1 / 2 := by
    rw [mul_one, Real.exp_neg, Real.exp_log (by norm_num : (0:ℝ) < 2)]
    norm_num
  have h3 : Real.exp (-(Real.log 2 * 3)) = 1 / 8 := by
    have harg : -(Real.log 2 * 3)
        = -Real.log 2 + (-Real.log 2 + -Real.log 2) := by ring
    rw [harg, Real.exp_add, Real.exp_add, Real.exp_neg,
      Real.exp_log (by norm_num : (0:ℝ) < 2)]
    norm_num
  simp only [NRC.composite_run, List.foldl_cons, List.foldl_nil, he, h3]
  norm_num

lemma composite_run_alpha_foldl (ρ : ℝ) (c : Fin 3 → ℝ) :
    ∀ (steps : List ℝ) (col : Fin 3 → ℝ) (T : ℝ),
      steps.foldl
        (fun (acc : (Fin 3 → ℝ) × ℝ) (dt : ℝ) =>
          (fun k => acc.1 k + (acc.2 * (1 - Real.exp (-(ρ * dt)))) * c k,
           acc.2 * Real.exp (-(ρ * dt))))
        (col, T)
      = (fun k => col k + (T - T * Real.exp (-(ρ * steps.sum))) * c k,
         T * Real.exp (-(ρ * steps.sum))) := by
  intro steps
  induction steps with
  | nil =>
    intro col T
    simp only [List.foldl_nil, List.sum_nil, mul_zero, neg_zero, Real.exp_zero]
    simp only [Prod.mk.injEq]
    refine ⟨?_, by ring⟩
    funext k
    ring
  | cons dt rest ih =>
    intro col T
    rw [List.foldl_cons, ih]
    have harg : -(ρ * (dt :: rest).sum) = -(ρ * dt) + -(ρ * rest.sum) := by
      simp only [List.sum_cons]
      ring
    rw [harg, Real.exp_add]
    simp only [Prod.mk.injEq]
    refine ⟨?_, by ring⟩
    funext k
    ring

/-- C7 (amended): under the standard front-to-back rule — identical to
the claim's except that the transmittance is multiplied by
`(1 − alpha) = exp(−density × step)` rather than `(1 − weight)` — a ray
traversing constant density ρ and constant color c accumulates final
color `c·(1 − exp(−ρL))` and final opacity `1 − exp(−ρL)` where `L` is
the sum of the step lengths: the result depends on the partition of `L`
into steps only through their sum. -/
theorem C7_constant_density_integral (ρ : ℝ) (c : Fin 3 → ℝ) (steps : List ℝ) :
    (NRC.composite_run_alpha Real.exp ρ c steps).1
      = (fun k => (1 - Real.exp (-(ρ * steps.sum))) * c k) ∧
    1 - (NRC.composite_run_alpha Real.exp ρ c steps).2
      = 1 - Real.exp (-(ρ * steps.sum)) := by
  have h := composite_run_alpha_foldl ρ c steps (fun _ => 0) 1
  constructor
  · rw [NRC.composite_run_alpha, h]
    funext k
    ring
  · rw [NRC.composite_run_alpha, h]
    ring
